import Mathlib

/-!
Formal model of the acquisition repository core.

The development shallowly embeds the stateful parts of the repository:

* `acquisition/utils/common.py` — `calculate_duration` (timedelta arithmetic,
  modelled on timestamps given as seconds since the epoch);
* `acquisition/core/scoobydoo.py` — the capture loop `live`, modelled as a
  step function over an explicit budget state driven by a list of
  per-iteration environment events (probe results, segment outcomes,
  concatenation results);
* `acquisition/core/nick_fury.py` — the worker pool (`SpawnTheSheep`,
  semaphore gating in `sheep`), the scheduling wait loop and the end-of-cycle
  re-arm/terminate logic of `sheep`;
* `acquisition/core/bugsbunny.py` — `calling_processing` and the retrying
  trigger loop of `spin`;
* `acquisition/core/concate.py` — `concate_videos` over a model directory.

Machine-level effects (ffmpeg, sockets, the database) enter the model as
explicit environment inputs; everything the Python control flow decides on is
computed by the embedded definitions.
-/

namespace Acquisition

/-- Normalisation of a Python `timedelta` given in whole seconds: the
`.seconds` attribute is the floor-modulus remainder of the total length of
the delta by one day, always in `[0, 86400)`. -/
def timedelta_seconds (delta : Int) : Int :=
  delta % 86400

/-- Embedding of `common.calculate_duration` as called by `scoobydoo.live`
(with `turntable_mode=True`): both timestamps are parsed with the
`%Y-%m-%d %H:%M:%S` format and the function returns
`float((_end_time - _start_time).seconds)`.  Timestamps are modelled as
seconds since the epoch. -/
def calculate_duration (start_time end_time : Int) : Int :=
  timedelta_seconds (end_time - start_time)

/-- Environment input for one iteration of the `while True` loop in
`scoobydoo.live`.  `reachable` is the result of the `camera_live` probe;
when the probe succeeds, `stop_utc` is the epoch value of
`now().replace(tzinfo=timezone.utc).timestamp()` observed right after the
ffmpeg attempt finishes, `placeholder` records whether
`file_size(file) == '300.0 bytes'` (the no-signal stub), `drn` is the
duration probe of the produced segment file, and `concat` is the value
returned by `concate_videos` if it gets called on this iteration. -/
structure LiveEvent where
  reachable : Bool
  stop_utc : Int
  placeholder : Bool
  drn : Int
  concat : Option String
  deriving Repr, DecidableEq

/-- Mutable state of the capture loop in `scoobydoo.live`: the remaining
budget variable `duration`, the accumulated outage time `slept_duration`,
the segment index `idx`, the current wall clock `tnow` (epoch seconds,
advanced by sleeping and by recording attempts) and the log of
`time.sleep` calls made so far. -/
structure LiveState where
  duration : Int
  slept_duration : Int
  idx : Nat
  tnow : Int
  sleeps : List Int
  deriving Repr, DecidableEq

/-- The charge subtracted from the budget for a completed attempt:
`stop_secs if _old_file == '300.0 bytes' else drn(file)`, where
`stop_secs = now().second` is the seconds-of-minute component of the stop
instant, i.e. `stop_utc % 60`. -/
def old_duration_of (ev : LiveEvent) : Int :=
  if ev.placeholder then ev.stop_utc % 60 else ev.drn

/-- Result of one iteration of the capture loop: either the function
returns a concatenated output path, or the loop continues in a new state. -/
inductive StepRes where
  | ret : String → StepRes
  | cont : LiveState → StepRes
  deriving Repr, DecidableEq

/-- One iteration of the `while True` loop of `scoobydoo.live` (lines
98-121).  On a successful probe the segment is recorded, the budget is
decreased by the measured charge plus the accumulated outage time, the
outage accumulator is reset, and if the hard deadline has passed or the
budget is exhausted concatenation is requested; the function returns only
when concatenation produces a truthy output.  On a failed probe the loop
adds `camera_timeout` to the outage accumulator and sleeps for
`camera_timeout` seconds. -/
def liveStep (camera_timeout force_close : Int) (st : LiveState)
    (ev : LiveEvent) : StepRes :=
  if ev.reachable then
    let old_duration := old_duration_of ev
    let duration := st.duration - old_duration - st.slept_duration
    let st1 : LiveState := ⟨duration, 0, st.idx + 1, ev.stop_utc, st.sleeps⟩
    if force_close ≤ ev.stop_utc ∨ duration ≤ 0 then
      match ev.concat with
      | some out => .ret out
      | none => .cont st1
    else .cont st1
  else
    .cont ⟨st.duration, st.slept_duration + camera_timeout, st.idx,
           st.tnow + camera_timeout, st.sleeps ++ [camera_timeout]⟩

/-- Outcome of running the capture loop against a finite event trace. -/
inductive LiveOutcome where
  | notEntered : LiveOutcome
  | returned : String → LiveOutcome
  | running : LiveState → LiveOutcome
  deriving Repr, DecidableEq

/-- Run the capture loop over a list of per-iteration environment events;
`running st` means the event trace was exhausted with the loop still
going. -/
def liveRun (camera_timeout force_close : Int) :
    LiveState → List LiveEvent → LiveOutcome
  | st, [] => .running st
  | st, ev :: evs =>
    match liveStep camera_timeout force_close st ev with
    | .ret out => .returned out
    | .cont st1 => liveRun camera_timeout force_close st1 evs

/-- Embedding of `scoobydoo.live` after the duration and deadline are
computed: the capture loop runs only under the `if duration != 0` guard.
`t0` is the wall clock when the loop starts. -/
def live (camera_timeout start_time end_time force_close t0 : Int)
    (evs : List LiveEvent) : LiveOutcome :=
  let duration := calculate_duration start_time end_time
  if duration ≠ 0 then
    liveRun camera_timeout force_close ⟨duration, 0, 1, t0, []⟩ evs
  else
    .notEntered

/-- Total recording charge over the reachable events of a trace. -/
def recordedSum (evs : List LiveEvent) : Int :=
  (evs.filter (fun ev => ev.reachable)).foldr
    (fun ev acc => old_duration_of ev + acc) 0

/-- Number of failed-probe events in a trace. -/
def outageCount (evs : List LiveEvent) : Nat :=
  (evs.filter (fun ev => !ev.reachable)).length

/-- Total outage time charged against the budget over a trace. -/
def outageSum (camera_timeout : Int) (evs : List LiveEvent) : Int :=
  camera_timeout * outageCount evs

/-- Calendar date (as a day number) of a naive timestamp given in seconds
since the epoch, i.e. the `.date()` of the datetime. -/
def date_of (t : Nat) : Nat :=
  t / 86400

/-- The `end_date` variable of `nick_fury.sheep` (line 62): the configured
end date plus one day, expressed as a day number. -/
def sheep_end_date (end_cfg : Nat) : Nat :=
  end_cfg + 1

/-- Outcome of the scheduling wait loop of `nick_fury.sheep` (lines 74-103)
up to the first start of the capture pipeline.  `fired t slept rest` means
the pipeline started at the poll that observed wall clock `t`, after
`slept` one-second sleeps, with `rest` the clock readings not yet
consumed; `ended slept` means the loop condition
`now().date() < end_date.date()` failed; `outOfTicks` means the supplied
clock trace ran out with the loop still polling. -/
inductive WaitResult where
  | fired : Nat → Nat → List Nat → WaitResult
  | ended : Nat → WaitResult
  | outOfTicks : Nat → WaitResult
  deriving Repr, DecidableEq

/-- The wait loop of `nick_fury.sheep`: while the observed date is before
`end_date`, fire the pipeline when `str(now()) == str(_start_time)` (at
second granularity, modelled as equality of epoch values), otherwise
`time.sleep(1.0)` and poll again.  The loop is driven by the list of
successive wall-clock readings. -/
def waitLoop (end_date target slept : Nat) : List Nat → WaitResult
  | [] => .outOfTicks slept
  | t :: ts =>
    if date_of t < end_date then
      if t = target then .fired t slept ts
      else waitLoop end_date target (slept + 1) ts
    else .ended slept

/-- Embedding of Python `list.remove` used by `SpawnTheSheep`: remove the
first occurrence of `x`, or report `none` when `x` is absent (in which
case Python raises `ValueError`). -/
def removeFirst : List String → String → Option (List String)
  | [], _ => none
  | a :: as, x => if a = x then some as else (removeFirst as x).map (a :: ·)

/-- Embedding of `SpawnTheSheep.spawn`: `self.active.append(name)`. -/
def spawn (active : List String) (name : String) : List String :=
  active ++ [name]

/-- Result of a `despawn` call: the registry afterwards, and whether the
call raised `ValueError`. -/
structure DespawnResult where
  active : List String
  raised : Bool
  deriving Repr, DecidableEq

/-- Embedding of `SpawnTheSheep.despawn`: `self.active.remove(name)`.
Python `list.remove` deletes the first occurrence and raises `ValueError`
when the value is absent, leaving the list unchanged. -/
def despawn (active : List String) (name : String) : DespawnResult :=
  match removeFirst active name with
  | some l => ⟨l, false⟩
  | none => ⟨active, true⟩

/-- Scheduler-level events of the worker pool of `nick_fury`: a worker
entering the active region (`with threads:` acquires the semaphore, then
`pool.spawn(name)`); a worker leaving through a path that calls
`pool.despawn(name)` (normal termination, `KeyboardInterrupt`); and a
worker leaving through the generic `except Exception` handler, which logs
but never calls `pool.despawn`, after which `with threads:` still releases
the semaphore. -/
inductive PoolEvent where
  | enter : String → PoolEvent
  | exitClean : String → PoolEvent
  | exitExc : String → PoolEvent
  deriving Repr, DecidableEq

/-- Shared pool state: available semaphore permits, number of workers
currently inside the semaphore-guarded region, and the `pool.active`
registry list. -/
structure PoolState where
  permits : Nat
  holding : Nat
  active : List String
  deriving Repr, DecidableEq

/-- One pool transition; `none` when the event is not enabled in the given
state (entering needs a free permit, exiting needs a worker in the region,
a clean exit needs the name to be present for `list.remove`). -/
def poolStep (st : PoolState) : PoolEvent → Option PoolState
  | .enter n =>
    if 0 < st.permits then
      some ⟨st.permits - 1, st.holding + 1, spawn st.active n⟩
    else none
  | .exitClean n =>
    if 0 < st.holding then
      (removeFirst st.active n).map (fun l => ⟨st.permits + 1, st.holding - 1, l⟩)
    else none
  | .exitExc _ =>
    if 0 < st.holding then
      some ⟨st.permits + 1, st.holding - 1, st.active⟩
    else none

/-- Run a sequence of pool events. -/
def poolRun : PoolState → List PoolEvent → Option PoolState
  | st, [] => some st
  | st, ev :: evs =>
    match poolStep st ev with
    | some st1 => poolRun st1 evs
    | none => none

/-- Initial pool state: `threads = threading.Semaphore(100)` and an empty
`pool.active` registry. -/
def initPool : PoolState :=
  ⟨100, 0, []⟩

/-- Number of exception exits in a pool event trace. -/
def excCount (evs : List PoolEvent) : Nat :=
  (evs.filter (fun ev => match ev with | .exitExc _ => true | _ => false)).length

/-- End-of-cycle bookkeeping of `nick_fury.sheep` (lines 82-101) for a
live (non-archived) order: the next run date, whether the termination
branch was taken (status DONE and `pool.despawn`), the
`processing_status_id` written last, and whether the inner polling loop
was left with `break`. -/
structure CycleEnd where
  next_run : Nat
  terminated : Bool
  status : Nat
  breaks : Bool
  deriving Repr, DecidableEq

/-- Embedding of the end-of-cycle logic of `nick_fury.sheep`: after `spin`
returns, `run_date = now() + timedelta(days=1)`; the worker takes the
termination branch exactly when `str(end_date.date()) == str(run_date)`,
where `end_date` is the configured end date plus one day.  On termination
it writes status 3 and despawns but does not break the polling loop; on
re-arm it writes status 1, stores the updated date and breaks.  Dates are
modelled as day numbers. -/
def sheep_cycle_end (today end_cfg : Nat) : CycleEnd :=
  let run_date := today + 1
  if sheep_end_date end_cfg = run_date then ⟨run_date, true, 3, false⟩
  else ⟨run_date, false, 1, true⟩

/-- Embedding of `bugsbunny.calling_processing`: the POST is issued and the
function returns `True` unless an exception was raised; the response
status code is logged but never inspected. -/
def calling_processing (raised : Bool) (status_code : Nat) : Bool :=
  !raised

/-- One attempt of the downstream trigger call: whether `requests.post`
raised, and the HTTP status code of the response otherwise. -/
structure TriggerAttempt where
  raised : Bool
  status_code : Nat
  deriving Repr, DecidableEq

/-- Outcome of the trigger loop of `bugsbunny.spin` (lines 129-137):
`done attempts sleeps artifact_deleted` when the loop broke on a success,
`looping attempts sleeps` when the attempt trace was exhausted with the
loop still retrying.  `sleeps` logs every `time.sleep(timeout)` call. -/
inductive DeliveryOutcome where
  | done : Nat → List Int → Bool → DeliveryOutcome
  | looping : Nat → List Int → DeliveryOutcome
  deriving Repr, DecidableEq

/-- Embedding of the `while True` trigger loop of `bugsbunny.spin`: call
`calling_processing`, break on success, otherwise sleep for the configured
timeout and retry.  After the break the code only logs the elapsed time;
no statement in `spin` removes the local artifact, so the third field of
`done` is the constant `false`. -/
def spin_trigger_loop (timeout : Int) (attempts : Nat) (sleeps : List Int) :
    List TriggerAttempt → DeliveryOutcome
  | [] => .looping attempts sleeps
  | a :: rest =>
    if calling_processing a.raised a.status_code then
      .done (attempts + 1) sleeps false
    else
      spin_trigger_loop timeout (attempts + 1) (sleeps ++ [timeout]) rest

/-- A file of the model capture directory: its name, size in bytes,
creation time, whether its name ends in one of `video_file_extensions`,
and the duration `trim.duration` would report (`none` when `moviepy`
cannot read the file and raises). -/
structure VFile where
  name : String
  size : Nat
  ctime : Nat
  is_video : Bool
  drn_val : Option Int
  deriving Repr, DecidableEq

/-- Test used on line 27 of `concate.py`:
`file_size(path) != '300.0 bytes'` filters the placeholder stubs; for
integer byte sizes below 1024, `convert_bytes` renders `'300.0 bytes'`
exactly when the size is 300. -/
def file_size_is_300_bytes (sz : Nat) : Bool :=
  decide (sz = 300)

/-- Result of `concate_videos` on the model directory: the returned value
together with the directory contents afterwards, or a propagated
exception. -/
inductive ConcatResult where
  | ret : Option String → List VFile → ConcatResult
  | exc : List VFile → ConcatResult
  deriving Repr, DecidableEq

/-- Embedding of `concate.concate_videos` with `delete_old_files=True`.
The directory is the list `fs` in `os.listdir` order.  With no files the
function returns `None`.  With exactly one file, line 34 compares
`drn(file)` — the video duration reported by `moviepy` — with the string
`'300.0 bytes'`: in Python a number never equals that string, so when the
duration probe succeeds the branch is skipped and the path of the file is
returned; when `moviepy` raises on the file the exception propagates.
With two or more files, the non-placeholder video files are listed for
ffmpeg and the external `ffmpeg -f concat` invocation is modelled by the
`ffout` parameter (the produced output file); afterwards every video file
except the output is deleted.  `dirname` is the directory path. -/
def concate_videos (dirname : String) (fs : List VFile) (ffout : VFile) :
    ConcatResult :=
  if fs.length = 0 then .ret none fs
  else if fs.length = 1 then
    match fs with
    | [] => .ret none fs
    | f :: _ =>
      match f.drn_val with
      | some _ => .ret (some (dirname ++ "/" ++ f.name)) fs
      | none => .exc fs
  else
    .ret (some (dirname ++ "/" ++ ffout.name))
      ((fs.filter (fun f => !f.is_video)) ++ [ffout])

theorem liveRun_ne_notEntered (ct fc : Int) :
    ∀ (evs : List LiveEvent) (st : LiveState),
      liveRun ct fc st evs ≠ LiveOutcome.notEntered := by
  intro evs
  induction evs with
  | nil => intro st h; exact LiveOutcome.noConfusion h
  | cons ev evs ih =>
    intro st h
    rw [liveRun] at h
    cases hs : liveStep ct fc st ev with
    | ret out => rw [hs] at h; exact LiveOutcome.noConfusion h
    | cont st1 => rw [hs] at h; exact ih st1 h

theorem liveStep_cont_budget (ct fc : Int) (st : LiveState) (ev : LiveEvent)
    (st1 : LiveState) (h : liveStep ct fc st ev = StepRes.cont st1) :
    st1.duration - st1.slept_duration =
      st.duration - st.slept_duration -
        (if ev.reachable then old_duration_of ev else ct) := by
  by_cases hr : ev.reachable
  · simp only [liveStep, hr, if_true] at h
    split at h
    · split at h
      · exact StepRes.noConfusion h
      · cases h
        simp only [hr, if_true]
        ring
    · cases h
      simp only [hr, if_true]
      ring
  · simp only [liveStep, hr, Bool.false_eq_true, if_false] at h
    cases h
    simp only [hr, Bool.false_eq_true, if_false]
    ring

theorem liveRun_budget (ct fc : Int) :
    ∀ (evs : List LiveEvent) (st st1 : LiveState),
      liveRun ct fc st evs = LiveOutcome.running st1 →
      st1.duration - st1.slept_duration =
        st.duration - st.slept_duration - recordedSum evs - outageSum ct evs := by
  intro evs
  induction evs with
  | nil =>
    intro st st1 h
    rw [liveRun] at h
    cases h
    simp [recordedSum, outageSum, outageCount]
  | cons ev evs ih =>
    intro st st1 h
    rw [liveRun] at h
    cases hs : liveStep ct fc st ev with
    | ret out => rw [hs] at h; exact absurd h (by simp)
    | cont st2 =>
      rw [hs] at h
      have hb := liveStep_cont_budget ct fc st ev st2 hs
      have hrec := ih st2 st1 h
      by_cases hr : ev.reachable
      · have h1 : recordedSum (ev :: evs) = old_duration_of ev + recordedSum evs := by
          simp [recordedSum, List.filter_cons, hr]
        have h2 : outageSum ct (ev :: evs) = outageSum ct evs := by
          simp [outageSum, outageCount, List.filter_cons, hr]
        rw [h1, h2]
        rw [if_pos hr] at hb
        linarith
      · have h1 : recordedSum (ev :: evs) = recordedSum evs := by
          simp [recordedSum, List.filter_cons, hr]
        have h2 : outageSum ct (ev :: evs) = ct + outageSum ct evs := by
          simp only [outageSum, outageCount, List.filter_cons, hr,
            Bool.not_false, if_pos, List.length_cons]
          push_cast
          ring
        rw [h1, h2]
        rw [if_neg hr] at hb
        linarith

theorem liveStep_ret_iff (ct fc : Int) (st : LiveState) (ev : LiveEvent)
    (out : String) :
    liveStep ct fc st ev = StepRes.ret out ↔
      ev.reachable = true ∧ ev.concat = some out ∧
        (fc ≤ ev.stop_utc ∨
          st.duration - old_duration_of ev - st.slept_duration ≤ 0) := by
  by_cases hr : ev.reachable
  · simp only [liveStep, hr, if_true, true_and]
    by_cases hc : fc ≤ ev.stop_utc ∨
        st.duration - old_duration_of ev - st.slept_duration ≤ 0
    · rw [if_pos hc]
      cases hcc : ev.concat with
      | some o =>
        simp only [hcc, hc, and_true, Option.some.injEq]
        constructor
        · intro h; cases h; rfl
        · intro h; cases h; rfl
      | none => simp [hcc, hc]
    · rw [if_neg hc]
      constructor
      · intro h
        exact absurd h (by simp)
      · rintro ⟨-, hcond⟩
        exact absurd hcond hc
  · simp [liveStep, hr]

/-- C10: `calculate_duration` returns the `.seconds` component of the
timedelta `end − start`, a value always in `[0, 86400)`; when the end time
precedes the start time it returns the positive wrapped remainder of a day
(never a negative value or an error), and `live` enters its capture loop
exactly when this value is nonzero. -/
theorem C10_duration_wraps (s e : Int) :
    calculate_duration s e = timedelta_seconds (e - s)
    ∧ 0 ≤ calculate_duration s e
    ∧ calculate_duration s e < 86400
    ∧ (e < s → s - e ≤ 86400 → calculate_duration s e = 86400 - (s - e))
    ∧ (∀ ct fc t0 evs,
        live ct s e fc t0 evs = LiveOutcome.notEntered ↔
          calculate_duration s e = 0) := by
  refine ⟨rfl, ?_, ?_, ?_, ?_⟩
  · unfold calculate_duration timedelta_seconds
    omega
  · unfold calculate_duration timedelta_seconds
    omega
  · intro h1 h2
    unfold calculate_duration timedelta_seconds
    omega
  · intro ct fc t0 evs
    constructor
    · intro h
      by_contra hd
      have : live ct s e fc t0 evs =
          liveRun ct fc ⟨calculate_duration s e, 0, 1, t0, []⟩ evs := by
        simp [live, hd]
      rw [this] at h
      exact liveRun_ne_notEntered ct fc evs _ h
    · intro hd
      simp [live, hd]

/-- Witness for C10 at a concrete input: start 100, end 40 (end precedes
start), the duration wraps to `86400 − 60`. -/
theorem C10_witness :
    calculate_duration 100 40 = 86400 - (100 - 40) :=
  (C10_duration_wraps 100 40).2.2.2.1 (by norm_num) (by norm_num)

/-- C1 (amended): the capture loop maintains the budget invariant — with
`remaining` the budget variable minus the not-yet-charged outage time,
every run of the loop that is still going satisfies
`remaining = target − elapsed_recording − lost_to_outages`.  However the
budget and the hard deadline are examined only at segment completion: the
loop returns exactly when the probe succeeded, the post-segment budget is
exhausted or the UTC clock at segment end reached the hard deadline, and
concatenation produced an output.  While the camera is unreachable the
loop only accumulates outage time and sleeps, with no deadline check at
all, so the session can run past the hard deadline. -/
theorem C1_amended_budget_invariant :
    (∀ (ct fc : Int) (evs : List LiveEvent) (st st1 : LiveState),
        liveRun ct fc st evs = LiveOutcome.running st1 →
        st1.duration - st1.slept_duration =
          st.duration - st.slept_duration - recordedSum evs - outageSum ct evs)
    ∧ (∀ (ct fc : Int) (st : LiveState) (ev : LiveEvent) (out : String),
        liveStep ct fc st ev = StepRes.ret out ↔
          ev.reachable = true ∧ ev.concat = some out ∧
            (fc ≤ ev.stop_utc ∨
              st.duration - old_duration_of ev - st.slept_duration ≤ 0)) :=
  ⟨fun ct fc evs st st1 h => liveRun_budget ct fc evs st st1 h,
   fun ct fc st ev out => liveStep_ret_iff ct fc st ev out⟩

/-- Witness for C1 at a concrete input: one failed probe with timeout 30
charges 30 seconds of outage against the remaining budget. -/
theorem C1_witness :
    (10 : Int) - 30 =
      10 - 0 - recordedSum [⟨false, 0, false, 0, none⟩] -
        outageSum 30 [⟨false, 0, false, 0, none⟩] := by
  have h := C1_amended_budget_invariant.1 30 1000 [⟨false, 0, false, 0, none⟩]
    ⟨10, 0, 1, 0, []⟩ ⟨10, 30, 1, 30, [30]⟩ (by decide)
  simpa using h

/-- Counterexample to C1 as stated: with hard deadline 100, the loop
starts at UTC 90 with 10 seconds of budget left and the camera becomes
unreachable.  The unreachable branch of the loop body accumulates the
30-second timeout and sleeps without ever checking the deadline: after the
first failed probe the clock is at 120, already past the deadline, and the
loop probes again; after the second it is at 150 and the session is still
running, never having requested concatenation.  The session therefore does
not stop at the earlier of budget exhaustion and the hard deadline, and it
runs past the hard deadline. -/
theorem C1_counterexample :
    liveRun 30 100 ⟨10, 0, 1, 90, []⟩
        [⟨false, 0, false, 0, none⟩, ⟨false, 0, false, 0, none⟩]
      = LiveOutcome.running ⟨10, 60, 1, 150, [30, 30]⟩
    ∧ (100 : Int) < 120 ∧ (100 : Int) < 150 := by
  refine ⟨by decide, by norm_num, by norm_num⟩

/-- C6 (amended): on each iteration, a failed probe adds exactly the
camera timeout to `lost_to_outages` and sleeps for the timeout before
reprobing; a completed segment decreases the budget by its recorded
duration — or, for a placeholder segment detected by the exact 300-byte
file size, by `now().second`, the seconds-of-minute component (in
`[0, 60)`) of the wall-clock time at which the attempt ended, not the
elapsed wall-clock seconds of the attempt — plus the accumulated
`lost_to_outages`, which is then reset to zero. -/
theorem C6_amended_step (ct fc : Int) (st : LiveState) (ev : LiveEvent) :
    (ev.reachable = false →
      liveStep ct fc st ev =
        StepRes.cont ⟨st.duration, st.slept_duration + ct, st.idx,
          st.tnow + ct, st.sleeps ++ [ct]⟩)
    ∧ (∀ st1, ev.reachable = true → liveStep ct fc st ev = StepRes.cont st1 →
        st1.duration =
          st.duration - (if ev.placeholder then ev.stop_utc % 60 else ev.drn) -
            st.slept_duration
        ∧ st1.slept_duration = 0 ∧ st1.idx = st.idx + 1
        ∧ st1.tnow = ev.stop_utc ∧ st1.sleeps = st.sleeps) := by
  constructor
  · intro hr
    simp [liveStep, hr]
  · intro st1 hr h
    simp only [liveStep, hr, if_true] at h
    split at h
    · split at h
      · exact StepRes.noConfusion h
      · cases h
        exact ⟨rfl, rfl, rfl, rfl, rfl⟩
    · cases h
      exact ⟨rfl, rfl, rfl, rfl, rfl⟩

/-- Witness for C6 at concrete inputs: a failed probe with timeout 30, and
a successful placeholder attempt ending at UTC 125 charged `125 % 60 = 5`. -/
theorem C6_witness :
    liveStep 30 1000 ⟨100, 0, 1, 0, []⟩ ⟨false, 0, false, 0, none⟩
        = StepRes.cont ⟨100, 30, 1, 30, [30]⟩
    ∧ (⟨95, 0, 2, 125, []⟩ : LiveState).duration
        = 100 - (if true then (125 : Int) % 60 else 7) - 0 := by
  constructor
  · exact (C6_amended_step 30 1000 ⟨100, 0, 1, 0, []⟩ ⟨false, 0, false, 0, none⟩).1 rfl
  · have h := (C6_amended_step 30 1000 ⟨100, 0, 1, 0, []⟩
      ⟨true, 125, true, 7, none⟩).2 ⟨95, 0, 2, 125, []⟩ rfl (by decide)
    exact h.1

/-- Counterexample to C6 as stated: a placeholder attempt that lasted 120
wall-clock seconds (the clock goes from 0 to 120) is charged
`120 % 60 = 0` seconds — the seconds component of the stop time — not the
elapsed 120 seconds, so the budget stays at 100 instead of dropping to
`100 − 120`. -/
theorem C6_counterexample :
    liveStep 30 1000 ⟨100, 0, 1, 0, []⟩ ⟨true, 120, true, 7, none⟩
        = StepRes.cont ⟨100, 0, 2, 120, []⟩
    ∧ old_duration_of ⟨true, 120, true, 7, none⟩ = 0
    ∧ (⟨true, 120, true, 7, none⟩ : LiveEvent).stop_utc -
        (⟨100, 0, 1, 0, []⟩ : LiveState).tnow = 120
    ∧ (0 : Int) ≠ 120 := by decide

theorem waitLoop_fired_iff (E target : Nat) :
    ∀ (ts : List Nat) (s t k : Nat) (rest : List Nat),
      waitLoop E target s ts = WaitResult.fired t k rest ↔
        ∃ pre, ts = pre ++ t :: rest ∧ k = s + pre.length
          ∧ (∀ u ∈ pre, date_of u < E ∧ u ≠ target)
          ∧ date_of t < E ∧ t = target := by
  intro ts
  induction ts with
  | nil =>
    intro s t k rest
    constructor
    · intro h
      exact absurd h (by simp [waitLoop])
    · rintro ⟨pre, hts, -⟩
      cases pre <;> simp at hts
  | cons u ts ih =>
    intro s t k rest
    rw [waitLoop]
    by_cases hd : date_of u < E
    · rw [if_pos hd]
      by_cases ht : u = target
      · rw [if_pos ht]
        constructor
        · intro h
          injection h with h1 h2 h3
          subst h1; subst h2; subst h3
          exact ⟨[], by simp, by simp, by simp, hd, ht⟩
        · rintro ⟨pre, hts, hk, hpre, hdt, htt⟩
          cases pre with
          | nil =>
            simp only [List.nil_append, List.cons.injEq] at hts
            simp only [List.length_nil, Nat.add_zero] at hk
            rw [hts.1, hts.2, hk]
          | cons p ps =>
            simp only [List.cons_append, List.cons.injEq] at hts
            have hp := (hpre p (by simp)).2
            exact absurd (hts.1 ▸ ht) hp
      · rw [if_neg ht]
        rw [ih]
        constructor
        · rintro ⟨pre, hts, hk, hpre, hdt, htt⟩
          refine ⟨u :: pre, by simp [hts], by simp [hk]; omega, ?_, hdt, htt⟩
          intro v hv
          rcases List.mem_cons.mp hv with hv | hv
          · exact hv ▸ ⟨hd, ht⟩
          · exact hpre v hv
        · rintro ⟨pre, hts, hk, hpre, hdt, htt⟩
          cases pre with
          | nil =>
            simp only [List.nil_append, List.cons.injEq] at hts
            exact absurd (hts.1.trans htt) ht
          | cons p ps =>
            simp only [List.cons_append, List.cons.injEq] at hts
            refine ⟨ps, hts.2, ?_, fun v hv => hpre v (by simp [hv]), hdt, htt⟩
            simp only [List.length_cons] at hk
            omega
    · rw [if_neg hd]
      constructor
      · intro h
        exact absurd h (by simp)
      · rintro ⟨pre, hts, hk, hpre, hdt, htt⟩
        cases pre with
        | nil =>
          simp only [List.nil_append, List.cons.injEq] at hts
          exact absurd (hts.1 ▸ hdt) hd
        | cons p ps =>
          simp only [List.cons_append, List.cons.injEq] at hts
          exact absurd (hts.1 ▸ (hpre p (by simp)).1) hd

theorem waitLoop_ended_first (E target : Nat) :
    ∀ (ts : List Nat) (s k : Nat),
      waitLoop E target s ts = WaitResult.ended k →
      ∃ pre u rest, ts = pre ++ u :: rest ∧ k = s + pre.length
        ∧ (∀ v ∈ pre, date_of v < E ∧ v ≠ target)
        ∧ ¬ date_of u < E := by
  intro ts
  induction ts with
  | nil =>
    intro s k h
    exact absurd h (by simp [waitLoop])
  | cons u ts ih =>
    intro s k h
    rw [waitLoop] at h
    by_cases hd : date_of u < E
    · rw [if_pos hd] at h
      by_cases ht : u = target
      · rw [if_pos ht] at h
        exact absurd h (by simp)
      · rw [if_neg ht] at h
        obtain ⟨pre, v, rest, hts, hk, hpre, hu⟩ := ih (s + 1) k h
        refine ⟨u :: pre, v, rest, by simp [hts], by simp; omega, ?_, hu⟩
        intro w hw
        rcases List.mem_cons.mp hw with hw | hw
        · exact hw ▸ ⟨hd, ht⟩
        · exact hpre w hw
    · rw [if_neg hd] at h
      injection h with h1
      exact ⟨[], u, ts, by simp, by simp [h1], by simp, hd⟩

/-- C2: the wait loop of `sheep` polls at a fixed one-second tick and
starts the capture pipeline exactly at the first poll whose wall-clock
reading (at second granularity) equals the computed UTC start instant,
with every earlier poll observing a different time and a date not past the
overall end date; it keeps polling until that equality holds or the first
poll whose date is past the end date ends the loop. -/
theorem C2_wait_loop_fires_iff :
    (∀ (end_cfg target : Nat) (ts : List Nat) (t k : Nat) (rest : List Nat),
      waitLoop (sheep_end_date end_cfg) target 0 ts = WaitResult.fired t k rest ↔
        ∃ pre, ts = pre ++ t :: rest ∧ k = pre.length
          ∧ (∀ u ∈ pre, date_of u ≤ end_cfg ∧ u ≠ target)
          ∧ date_of t ≤ end_cfg ∧ t = target)
    ∧ (∀ (end_cfg target : Nat) (ts : List Nat) (k : Nat),
        waitLoop (sheep_end_date end_cfg) target 0 ts = WaitResult.ended k →
        ∃ pre u rest, ts = pre ++ u :: rest ∧ k = pre.length
          ∧ (∀ v ∈ pre, date_of v ≤ end_cfg ∧ v ≠ target)
          ∧ end_cfg < date_of u) := by
  constructor
  · intro end_cfg target ts t k rest
    rw [waitLoop_fired_iff]
    unfold sheep_end_date
    constructor
    · rintro ⟨pre, hts, hk, hpre, hdt, htt⟩
      exact ⟨pre, hts, by omega,
        fun u hu => ⟨by have := (hpre u hu).1; omega, (hpre u hu).2⟩,
        by omega, htt⟩
    · rintro ⟨pre, hts, hk, hpre, hdt, htt⟩
      exact ⟨pre, hts, by omega,
        fun u hu => ⟨by have := (hpre u hu).1; omega, (hpre u hu).2⟩,
        by omega, htt⟩
  · intro end_cfg target ts k h
    obtain ⟨pre, u, rest, hts, hk, hpre, hu⟩ :=
      waitLoop_ended_first (sheep_end_date end_cfg) target ts 0 k h
    unfold sheep_end_date at hpre hu
    exact ⟨pre, u, rest, hts, by omega,
      fun v hv => ⟨by have := (hpre v hv).1; omega, (hpre v hv).2⟩,
      by omega⟩

/-- Witness for C2 at a concrete input: with the start instant at epoch
1000, a trace that reads 5 and then 1000 fires at the second poll, after
exactly one one-second sleep. -/
theorem C2_witness :
    waitLoop (sheep_end_date 20000) 1000 0 [5, 1000] =
      WaitResult.fired 1000 1 [] :=
  (C2_wait_loop_fires_iff.1 20000 1000 [5, 1000] 1000 1 []).2
    ⟨[5], rfl, rfl, by decide, by decide, rfl⟩

/-- Counterexample to C3 as stated: `despawn` on an identity that is not
in the registry is not a no-op — `list.remove` raises `ValueError`
(`raised = true`), though the registry is left unchanged. -/
theorem C3_counterexample :
    despawn ["order_a"] "order_b" = ⟨["order_a"], true⟩ := by
  rfl

/-- C3 (amended): calling `despawn(id)` when `id` is not a member of the
active-identity set raises `ValueError` from `list.remove`; the registry
itself is left unchanged by the failed call. -/
theorem C3_amended_despawn_raises :
    ∀ (active : List String) (name : String), name ∉ active →
      despawn active name = ⟨active, true⟩ := by
  intro active name h
  have hr : removeFirst active name = none := by
    induction active with
    | nil => rfl
    | cons a as ih =>
      have ha : a ≠ name := fun hh => h (by simp [hh])
      have has : name ∉ as := fun hh => h (by simp [hh])
      simp [removeFirst, ha, ih has]
  simp [despawn, hr]

/-- Witness for C3 at a concrete input: despawning from the empty registry
raises and leaves it empty. -/
theorem C3_witness :
    despawn [] "order_x" = ⟨[], true⟩ :=
  C3_amended_despawn_raises [] "order_x" (by simp)

/-- C5 (amended): after each completed daily cycle the worker computes the
next run date as today plus one day, and it takes the termination branch —
marking status DONE (3) and despawning from the pool, though without
breaking the polling loop — exactly when the next run date equals the
configured end date plus one day, i.e. when the cycle ran on the end date
itself; a next run date merely equal to the end date re-arms for one more
day with status WAITING (1) and a `break` to recompute the window. -/
theorem C5_amended_rearm :
    ∀ today end_cfg : Nat,
      sheep_cycle_end today end_cfg =
        if today = end_cfg then ⟨today + 1, true, 3, false⟩
        else ⟨today + 1, false, 1, true⟩ := by
  intro today end_cfg
  unfold sheep_cycle_end sheep_end_date
  by_cases h : today = end_cfg
  · subst h
    simp
  · have h1 : ¬(end_cfg + 1 = today + 1) := by omega
    rw [if_neg h1, if_neg h]

/-- Counterexample to C5 as stated: with the cycle run on day 5 and the
configured end date day 6, the next run date 6 equals the end date — so
the claim requires the TERMINATED transition — but the code re-arms with
status WAITING (1) and does not despawn. -/
theorem C5_counterexample :
    sheep_cycle_end 5 6 = ⟨6, false, 1, true⟩
    ∧ 6 ≤ (sheep_cycle_end 5 6).next_run := by
  decide

theorem removeFirst_length :
    ∀ (l : List String) (x : String) (l2 : List String),
      removeFirst l x = some l2 → l2.length + 1 = l.length := by
  intro l
  induction l with
  | nil => intro x l2 h; exact absurd h (by simp [removeFirst])
  | cons a as ih =>
    intro x l2 h
    rw [removeFirst] at h
    by_cases ha : a = x
    · rw [if_pos ha] at h
      injection h with h
      subst h
      simp
    · rw [if_neg ha] at h
      cases hr : removeFirst as x with
      | none => rw [hr] at h; exact absurd h (by simp)
      | some l3 =>
        rw [hr] at h
        injection h with h
        subst h
        have := ih x l3 hr
        simp
        omega

theorem excCount_cons (ev : PoolEvent) (evs : List PoolEvent) :
    excCount (ev :: evs) =
      (match ev with | .exitExc _ => 1 | _ => 0) + excCount evs := by
  cases ev <;> simp [excCount, List.filter_cons] <;> omega

theorem poolRun_invariant :
    ∀ (evs : List PoolEvent) (st0 st : PoolState),
      poolRun st0 evs = some st →
      st.permits + st.holding = st0.permits + st0.holding
      ∧ st.active.length + st0.holding ≤
          st0.active.length + st.holding + excCount evs := by
  intro evs
  induction evs with
  | nil =>
    intro st0 st h
    rw [poolRun] at h
    injection h with h
    subst h
    simp [excCount]
  | cons ev evs ih =>
    intro st0 st h
    rw [poolRun] at h
    cases hs : poolStep st0 ev with
    | none => rw [hs] at h; exact absurd h (by simp)
    | some st1 =>
      rw [hs] at h
      obtain ⟨hperm, hlen⟩ := ih st1 st h
      rw [excCount_cons]
      cases ev with
      | enter n =>
        rw [poolStep] at hs
        split at hs
        · injection hs with hs
          subst hs
          simp only [spawn, List.length_append, List.length_cons,
            List.length_nil] at hlen hperm ⊢
          constructor <;> omega
        · exact absurd hs (by simp)
      | exitClean n =>
        rw [poolStep] at hs
        split at hs
        · cases hrf : removeFirst st0.active n with
          | none => rw [hrf] at hs; exact absurd hs (by simp)
          | some l =>
            rw [hrf] at hs
            injection hs with hs
            subst hs
            have hll := removeFirst_length st0.active n l hrf
            simp only at hlen hperm ⊢
            constructor <;> omega
        · exact absurd hs (by simp)
      | exitExc n =>
        rw [poolStep] at hs
        split at hs
        · injection hs with hs
          subst hs
          simp only at hlen hperm ⊢
          constructor <;> omega
        · exact absurd hs (by simp)

/-- C4 (amended): with the pool bound 100, the number of workers
concurrently inside the semaphore-guarded region never exceeds 100
(`permits + holding = 100` at all times), and every worker that exits
through a despawning path is removed from the registry — but a worker that
exits through the generic exception handler releases its permit without
being despawned, so the registry size is bounded only by the number of
in-region workers plus the number of exception exits, and can exceed the
pool bound. -/
theorem C4_amended_pool_bound :
    ∀ (evs : List PoolEvent) (st : PoolState),
      poolRun initPool evs = some st →
      st.permits + st.holding = 100 ∧ st.holding ≤ 100
      ∧ st.active.length ≤ st.holding + excCount evs
      ∧ st.active.length ≤ 100 + excCount evs := by
  intro evs st h
  obtain ⟨hp, hl⟩ := poolRun_invariant evs initPool st h
  simp only [initPool, List.length_nil] at hp hl
  exact ⟨hp, by omega, by omega, by omega⟩

/-- Witness for C4 at a concrete input: one worker enters the fresh pool. -/
theorem C4_witness :
    (99 : Nat) + 1 = 100 ∧ (1 : Nat) ≤ 100
    ∧ (["order_a"] : List String).length ≤
        1 + excCount [PoolEvent.enter ("order_a")]
    ∧ (["order_a"] : List String).length ≤
        100 + excCount [PoolEvent.enter ("order_a")] := by
  have h := C4_amended_pool_bound [PoolEvent.enter ("order_a")]
    ⟨99, 1, ["order_a"]⟩ (by rfl)
  exact h

/-- Distinct one-character worker identities for the counterexample. -/
def cexName (i : Nat) : String :=
  String.mk [Char.ofNat (65 + i)]

/-- A spawn pattern: 100 workers enter and fill the pool, all 100 die from
unhandled exceptions (releasing their permits but staying registered), and
one more worker enters. -/
def C4trace : List PoolEvent :=
  ((List.range 100).map (fun i => PoolEvent.enter (cexName i)))
    ++ ((List.range 100).map (fun i => PoolEvent.exitExc (cexName i)))
    ++ [PoolEvent.enter (cexName 100)]

set_option maxRecDepth 40000 in
/-- Counterexample to C4 as stated: after 100 workers exit via unhandled
exceptions and one more spawns, the active-worker registry holds 101
identities — it exceeds the pool bound 100, because exception exits do not
despawn. -/
theorem C4_counterexample :
    (poolRun initPool C4trace).map (fun st => st.active.length) = some 101 := by
  rfl

theorem spin_trigger_done_no_delete :
    ∀ (timeout : Int) (trace : List TriggerAttempt) (a : Nat) (s : List Int)
      (n : Nat) (sl : List Int) (del : Bool),
      spin_trigger_loop timeout a s trace = DeliveryOutcome.done n sl del →
      del = false := by
  intro timeout trace
  induction trace with
  | nil =>
    intro a s n sl del h
    exact absurd h (by simp [spin_trigger_loop])
  | cons t rest ih =>
    intro a s n sl del h
    rw [spin_trigger_loop] at h
    by_cases hc : calling_processing t.raised t.status_code
    · rw [if_pos hc] at h
      injection h with h1 h2 h3
      exact h3.symm
    · rw [if_neg hc] at h
      exact ih _ _ _ _ _ h

theorem spin_trigger_first_success :
    ∀ (timeout : Int) (pre : List TriggerAttempt) (t : TriggerAttempt)
      (rest : List TriggerAttempt) (a : Nat) (s : List Int),
      (∀ u ∈ pre, u.raised = true) → t.raised = false →
      spin_trigger_loop timeout a s (pre ++ t :: rest) =
        DeliveryOutcome.done (a + pre.length + 1)
          (s ++ List.replicate pre.length timeout) false := by
  intro timeout pre
  induction pre with
  | nil =>
    intro t rest a s hpre ht
    rw [List.nil_append, spin_trigger_loop]
    simp [calling_processing, ht]
  | cons u us ih =>
    intro t rest a s hpre ht
    have hu : u.raised = true := hpre u (by simp)
    rw [List.cons_append, spin_trigger_loop]
    rw [if_neg (by simp [calling_processing, hu])]
    rw [ih t rest (a + 1) (s ++ [timeout]) (fun v hv => hpre v (by simp [hv])) ht]
    simp only [List.length_cons, List.replicate_succ, List.append_assoc,
      List.singleton_append]
    have hn : a + 1 + us.length + 1 = a + (us.length + 1) + 1 := by omega
    rw [hn]

theorem spin_trigger_all_fail :
    ∀ (timeout : Int) (trace : List TriggerAttempt) (a : Nat) (s : List Int),
      (∀ t ∈ trace, t.raised = true) →
      spin_trigger_loop timeout a s trace =
        DeliveryOutcome.looping (a + trace.length)
          (s ++ List.replicate trace.length timeout) := by
  intro timeout trace
  induction trace with
  | nil =>
    intro a s h
    simp [spin_trigger_loop]
  | cons t rest ih =>
    intro a s h
    have ht : t.raised = true := h t (by simp)
    rw [spin_trigger_loop]
    rw [if_neg (by simp [calling_processing, ht])]
    rw [ih (a + 1) (s ++ [timeout]) (fun v hv => h v (by simp [hv]))]
    simp only [List.length_cons, List.replicate_succ, List.append_assoc,
      List.singleton_append]
    have hn : a + 1 + rest.length = a + (rest.length + 1) := by omega
    rw [hn]

/-- C7 (amended): the delivery trigger loop exits at the first successful
trigger response, and the local artifact copy is never deleted by the
handshake — in particular, artifact deletion never occurs before a
successful trigger response. -/
theorem C7_amended_no_delete :
    (∀ (timeout : Int) (trace : List TriggerAttempt) (n : Nat)
        (sl : List Int) (del : Bool),
        spin_trigger_loop timeout 0 [] trace = DeliveryOutcome.done n sl del →
        del = false)
    ∧ (∀ (timeout : Int) (pre : List TriggerAttempt) (t : TriggerAttempt)
        (rest : List TriggerAttempt),
        (∀ u ∈ pre, u.raised = true) → t.raised = false →
        spin_trigger_loop timeout 0 [] (pre ++ t :: rest) =
          DeliveryOutcome.done (pre.length + 1)
            (List.replicate pre.length timeout) false) := by
  constructor
  · intro timeout trace n sl del h
    exact spin_trigger_done_no_delete timeout trace 0 [] n sl del h
  · intro timeout pre t rest hpre ht
    have h := spin_trigger_first_success timeout pre t rest 0 [] hpre ht
    simpa using h

/-- Witness for C7 at a concrete input: one failure then one success; the
loop ends after the success with the artifact not deleted. -/
theorem C7_witness :
    spin_trigger_loop 30 0 [] [⟨true, 0⟩, ⟨false, 500⟩]
        = DeliveryOutcome.done 2 [30] false
    ∧ false = false :=
  ⟨by decide,
   C7_amended_no_delete.1 30 [⟨true, 0⟩, ⟨false, 500⟩] 2 [30] false (by decide)⟩

/-- Counterexample to C7 as stated: the very first attempt succeeds and
the handshake finishes — with the artifact-deleted flag `false`: no
statement of the delivery code removes the local artifact, refuting that
the local copy is deleted after the first successful trigger response. -/
theorem C7_counterexample :
    spin_trigger_loop 30 0 [] [⟨false, 200⟩] =
      DeliveryOutcome.done 1 [] false := by
  rfl

/-- C9: the trigger loop retries indefinitely with a fixed sleep of the
configured timeout between failed attempts — after `n` failures it has
made `n` attempts and slept exactly `n` times for the fixed timeout, with
no retry bound and no backoff growth — it exits exactly at the first
successful attempt, and an attempt succeeds exactly when the POST call
returns without raising; the response status code is never consulted. -/
theorem C9_retry_forever :
    (∀ (timeout : Int) (trace : List TriggerAttempt),
        (∀ t ∈ trace, t.raised = true) →
        spin_trigger_loop timeout 0 [] trace =
          DeliveryOutcome.looping trace.length
            (List.replicate trace.length timeout))
    ∧ (∀ (timeout : Int) (pre : List TriggerAttempt) (t : TriggerAttempt)
        (rest : List TriggerAttempt),
        (∀ u ∈ pre, u.raised = true) → t.raised = false →
        spin_trigger_loop timeout 0 [] (pre ++ t :: rest) =
          DeliveryOutcome.done (pre.length + 1)
            (List.replicate pre.length timeout) false)
    ∧ (∀ (r : Bool) (c c2 : Nat), calling_processing r c = calling_processing r c2)
    ∧ (∀ (r : Bool) (c : Nat), calling_processing r c = true ↔ r = false) := by
  refine ⟨?_, ?_, ?_, ?_⟩
  · intro timeout trace h
    have := spin_trigger_all_fail timeout trace 0 [] h
    simpa using this
  · intro timeout pre t rest hpre ht
    have := spin_trigger_first_success timeout pre t rest 0 [] hpre ht
    simpa using this
  · intro r c c2
    rfl
  · intro r c
    cases r <;> simp [calling_processing]

/-- Witness for C9 at concrete inputs: one raising attempt leaves the loop
retrying after one attempt and one fixed-timeout sleep, and a
non-raising call counts as success whatever the status code. -/
theorem C9_witness :
    spin_trigger_loop 30 0 [] [⟨true, 0⟩] =
      DeliveryOutcome.looping 1 (List.replicate 1 30)
    ∧ calling_processing false 500 = true :=
  ⟨C9_retry_forever.1 30 [⟨true, 0⟩] (by decide),
   (C9_retry_forever.2.2.2 false 500).2 rfl⟩

/-- C8: evaluation of `concate_videos` at the failing input — a capture
directory holding exactly one 300-byte placeholder segment.  Line 34 of
`concate.py` compares `drn(file)`, the video duration, with the string
`'300.0 bytes'`; a number never equals that string, so when the duration
probe reads the stub the placeholder path is returned (and the file is not
deleted), and when `moviepy` cannot read the 300-byte stub the exception
propagates.  Either way the function does not return `None` and does not
delete the placeholder, although the size test `file_size(path) ==
'300.0 bytes'` used two lines earlier identifies it as a placeholder. -/
theorem C8_code_eval :
    concate_videos ("/videos/dir") [⟨"seg.mp4", 300, 0, true, none⟩]
        ⟨"out.mp4", 0, 0, true, none⟩
      = ConcatResult.exc [⟨"seg.mp4", 300, 0, true, none⟩]
    ∧ concate_videos ("/videos/dir") [⟨"seg.mp4", 300, 0, true, some 0⟩]
        ⟨"out.mp4", 0, 0, true, none⟩
      = ConcatResult.ret (some ("/videos/dir/seg.mp4"))
          [⟨"seg.mp4", 300, 0, true, some 0⟩]
    ∧ file_size_is_300_bytes 300 = true := by
  refine ⟨rfl, rfl, rfl⟩

end Acquisition
